import Mathlib

/-!
Verification of the credential-rotation and resilient-call subsystem of the
CYBERFORGE repository (src/services/apiKeyManager.ts and
src/services/geminiService.ts).

The TypeScript code keeps its state in localStorage; here that state is an
explicit value of type KeyStore threaded through every operation.  Stateful
functions become state transformers returning the updated store together
with their result.  The asynchronous retry executor becomes a pure function
producing a trace of its observable scheduling events (sleeps, operation
invocations, rotation attempts) together with its outcome (resolved value or
thrown error).
-/

/-- Entry stored by the API key manager (ApiKeyEntry in
src/services/apiKeyManager.ts). -/
structure ApiKeyEntry where
  id : String
  name : String
  key : String
  createdAt : Nat
  deriving DecidableEq, Repr

/-- The manager's persisted state: the ordered entry list (the STORAGE_KEY
record) and the active-key pointer (the ACTIVE_KEY_ID record; none models an
absent record, as after localStorage.removeItem). -/
structure KeyStore where
  keys : List ApiKeyEntry
  activeId : Option String
  deriving DecidableEq, Repr

/-- Fresh state: no entries, no active pointer. -/
def emptyStore : KeyStore := { keys := [], activeId := none }

/-- Model of JavaScript String.prototype.trim: drop leading and trailing
whitespace characters. -/
def trimStr (s : String) : String :=
  ⟨((s.data.dropWhile Char.isWhitespace).reverse.dropWhile Char.isWhitespace).reverse⟩

/-- ApiKeyManager.getAll: the stored entry list.  (The source returns [] when
the persisted record is absent or corrupt; the model state always holds the
decoded list.) -/
def ApiKeyManager.getAll (s : KeyStore) : List ApiKeyEntry :=
  s.keys

/-- ApiKeyManager.getActiveId: the active-key pointer record. -/
def ApiKeyManager.getActiveId (s : KeyStore) : Option String :=
  s.activeId

/-- ApiKeyManager.setActive: activate the entry with the given id if it
exists; otherwise leave the store unchanged and report false. -/
def ApiKeyManager.setActive (s : KeyStore) (id : String) : KeyStore × Bool :=
  let keyExists := s.keys.any (fun k => k.id == id)
  if keyExists then
    ({ s with activeId := some id }, true)
  else
    (s, false)

/-- ApiKeyManager.add: append a new entry with trimmed name and key.  The
source generates the fresh id from Date.now() and Math.random() and the
timestamp from Date.now(); both are taken here as explicit parameters.  If
the list has exactly one element after the append, the new entry is made
active. -/
def ApiKeyManager.add (s : KeyStore) (newId : String) (name key : String) (createdAt : Nat) :
    KeyStore × ApiKeyEntry :=
  let newKey : ApiKeyEntry :=
    { id := newId, name := trimStr name, key := trimStr key, createdAt := createdAt }
  let keys := s.keys ++ [newKey]
  let s1 : KeyStore := { s with keys := keys }
  if keys.length = 1 then
    ((ApiKeyManager.setActive s1 newKey.id).1, newKey)
  else
    (s1, newKey)

/-- ApiKeyManager.delete: remove every entry with the given id (the source
filters on id inequality); report false if nothing was removed.  If the
removed entry was active, reactivate the first remaining entry, or clear the
pointer when the list became empty. -/
def ApiKeyManager.delete (s : KeyStore) (id : String) : KeyStore × Bool :=
  let filtered := s.keys.filter (fun k => !(k.id == id))
  if filtered.length = s.keys.length then
    (s, false)
  else
    let s1 : KeyStore := { s with keys := filtered }
    if s.activeId == some id then
      match filtered with
      | [] => ({ s1 with activeId := none }, true)
      | first :: _ => ((ApiKeyManager.setActive s1 first.id).1, true)
    else
      (s1, true)

/-- ApiKeyManager.getActive: resolve the active pointer against the list.
The source's falsiness guard (!activeId) treats both a missing record and an
empty-string id as no active key; a dangling pointer resolves to none. -/
def ApiKeyManager.getActive (s : KeyStore) : Option ApiKeyEntry :=
  match s.activeId with
  | none => none
  | some activeId =>
    if activeId.isEmpty then none
    else s.keys.find? (fun k => k.id == activeId)

/-- ApiKeyManager.getActiveKey: the active entry's key string, none when no
active entry resolves (the source returns null then). -/
def ApiKeyManager.getActiveKey (s : KeyStore) : Option String :=
  (ApiKeyManager.getActive s).map ApiKeyEntry.key

/-- ApiKeyManager.hasKeys: whether any entry is stored. -/
def ApiKeyManager.hasKeys (s : KeyStore) : Bool :=
  !s.keys.isEmpty

/-- ApiKeyManager.update: overwrite name and key (trimmed) of the first entry
with the given id, preserving its id and createdAt; report false when the id
is not found. -/
def ApiKeyManager.update (s : KeyStore) (id name key : String) : KeyStore × Bool :=
  match s.keys.findIdx? (fun k => k.id == id) with
  | none => (s, false)
  | some index =>
    match s.keys[index]? with
    | none => (s, false)
    | some old =>
      ({ s with keys := s.keys.set index { old with name := trimStr name, key := trimStr key } },
        true)

/-- ApiKeyManager.clearAll: remove both persisted records. -/
def ApiKeyManager.clearAll (_s : KeyStore) : KeyStore :=
  emptyStore

/-- Does the first character list occur at the head of the second?  Helper
for the substring test. -/
def startsWithChars : List Char → List Char → Bool
  | [], _ => true
  | _ :: _, [] => false
  | c :: cs, d :: ds => c == d && startsWithChars cs ds

/-- Does the needle occur anywhere inside the haystack (character lists)? -/
def containsChars (needle : List Char) : List Char → Bool
  | [] => startsWithChars needle []
  | d :: ds => startsWithChars needle (d :: ds) || containsChars needle ds

/-- Model of JavaScript String.prototype.includes: case-sensitive substring
containment. -/
def containsSub (hay needle : String) : Bool :=
  containsChars needle.data hay.data

/-- isRateLimitError (src/services/geminiService.ts).  The argument models
the error value through its textual representation, as derived by the
source's errorStr computation over message/toString: none stands for a
null or undefined error, which that computation turns into the empty
string. -/
def isRateLimitError (error : Option String) : Bool :=
  let errorStr := match error with | none => "" | some s => s
  containsSub errorStr "429" ||
    containsSub errorStr "Too Many Requests" ||
    containsSub errorStr "RESOURCE_EXHAUSTED" ||
    containsSub errorStr "quota"

/-- tryRotateApiKey (src/services/geminiService.ts), as a state transformer.
JavaScript findIndex yields -1 when no entry carries the active id, and
(-1 + 1) % length = 0, so the none branch of the match maps to next index 0.
The comparison k.id === currentActiveId of the source is string versus
string-or-null, modelled as equality against the optional active id. -/
def tryRotateApiKey (s : KeyStore) : KeyStore × Bool :=
  let allKeys := ApiKeyManager.getAll s
  let currentActiveId := ApiKeyManager.getActiveId s
  if allKeys.length ≤ 1 then
    (s, false)
  else
    let nextIndex :=
      match allKeys.findIdx? (fun k => currentActiveId == some k.id) with
      | none => 0
      | some currentIndex => (currentIndex + 1) % allKeys.length
    match allKeys[nextIndex]? with
    | none => (s, false)
    | some nextKey =>
      if currentActiveId == some nextKey.id then
        (s, false)
      else
        ((ApiKeyManager.setActive s nextKey.id).1, true)

/-- Result of one invocation of the wrapped asynchronous operation: resolve
with a value or reject with an error. -/
inductive OpResult (τ ε : Type) where
  | ok (value : τ)
  | err (error : ε)
  deriving DecidableEq, Repr

/-- Observable scheduling events of one executeWithRetry run: a sleep of the
given milliseconds, an invocation of the wrapped operation (1-based attempt
number), or a rotation attempt with its boolean result. -/
inductive RetryEvent where
  | sleep (ms : Nat)
  | invoke (attempt : Nat)
  | rotate (success : Bool)
  deriving DecidableEq, Repr

/-- How a run of executeWithRetry ends: return a value, throw the recorded
error, or throw the never-assigned lastError (reachable only when the
attempt budget is zero; JavaScript then throws undefined). -/
inductive RetryOutcome (τ ε : Type) where
  | success (value : τ)
  | failure (error : ε)
  | failureUndefined
  deriving DecidableEq, Repr

/-- Trace of one executeWithRetry run: its scheduling events in order, its
outcome, and the store state when it ends. -/
structure RetryTrace (τ ε : Type) where
  events : List RetryEvent
  outcome : RetryOutcome τ ε
  finalStore : KeyStore
  deriving DecidableEq, Repr

/-- The retry loop of executeWithRetry (src/services/geminiService.ts).
remaining counts the loop iterations left (maxRetries minus the loop
counter) and drives the recursion; attempt is the source's 0-based loop
counter.  op receives the store as rotated so far and the 1-based attempt
number; errText renders a thrown error the way the source's errorStr
computation does before the rate-limit test. -/
def runRetry {τ ε : Type} (op : KeyStore → Nat → OpResult τ ε) (errText : ε → String)
    (maxRetries baseDelay : Nat) :
    Nat → Nat → KeyStore → Option ε → RetryTrace τ ε
  | 0, _, s, lastError =>
    { events := [],
      outcome :=
        match lastError with
        | some e => .failure e
        | none => .failureUndefined,
      finalStore := s }
  | remaining + 1, attempt, s, _ =>
    let preEvents : List RetryEvent :=
      if 0 < attempt then [.sleep (baseDelay * 2 ^ (attempt - 1))] else []
    match op s (attempt + 1) with
    | .ok v =>
      { events := preEvents ++ [.invoke (attempt + 1)],
        outcome := .success v, finalStore := s }
    | .err e =>
      if isRateLimitError (some (errText e)) = true ∧ attempt < maxRetries - 1 then
        let rotated := tryRotateApiKey s
        if rotated.2 then
          let rest := runRetry op errText maxRetries baseDelay remaining (attempt + 1) rotated.1 (some e)
          { events := preEvents ++ [.invoke (attempt + 1), .rotate true] ++ rest.events,
            outcome := rest.outcome, finalStore := rest.finalStore }
        else
          let rest := runRetry op errText maxRetries baseDelay remaining (attempt + 1) rotated.1 (some e)
          { events := preEvents ++
              [.invoke (attempt + 1), .rotate false, .sleep (5000 * (attempt + 1))] ++ rest.events,
            outcome := rest.outcome, finalStore := rest.finalStore }
      else
        if attempt = maxRetries - 1 then
          { events := preEvents ++ [.invoke (attempt + 1)],
            outcome := .failure e, finalStore := s }
        else
          let rest := runRetry op errText maxRetries baseDelay remaining (attempt + 1) s (some e)
          { events := preEvents ++ [.invoke (attempt + 1)] ++ rest.events,
            outcome := rest.outcome, finalStore := rest.finalStore }

/-- executeWithRetry (src/services/geminiService.ts): run the loop from
attempt 0 with the full budget remaining and lastError undefined. -/
def executeWithRetry {τ ε : Type} (op : KeyStore → Nat → OpResult τ ε) (errText : ε → String)
    (maxRetries baseDelay : Nat) (s : KeyStore) : RetryTrace τ ε :=
  runRetry op errText maxRetries baseDelay maxRetries 0 s none

/-- Model of the JavaScript falsiness guard !apiKey applied to the result of
ApiKeyManager.getActiveKey(): both null and the empty string are falsy. -/
def keyIsFalsy : Option String → Bool
  | none => true
  | some s => s.isEmpty

/-- Message of the Error thrown by generateDesigns and generateImageForDesign
when the active key is falsy. -/
def noApiKeyError : String :=
  "No API key configured. Please add an API key in the API Key Manager."

/-- generateDesigns (src/services/geminiService.ts): the whole body, credential
check included, is the operation handed to executeWithRetry with 3 retries and
3000 ms base delay.  remote abstracts the rest of the wrapped body (the
Gemini request and response parsing), invoked only past the key check. -/
def generateDesigns {τ : Type} (remote : KeyStore → Nat → OpResult τ String) (s : KeyStore) :
    RetryTrace τ String :=
  executeWithRetry
    (fun st n =>
      if keyIsFalsy (ApiKeyManager.getActiveKey st) then .err noApiKeyError
      else remote st n)
    id 3 3000 s

/-- generateImageForDesign (src/services/geminiService.ts): credential check
inside the wrapped operation, 2 retries, 2000 ms base delay, and a final
catch converting any surfaced error into undefined (modelled as none). -/
def generateImageForDesign {τ : Type} (remote : KeyStore → Nat → OpResult τ String) (s : KeyStore) :
    Option τ × List RetryEvent :=
  let tr := executeWithRetry
    (fun st n =>
      if keyIsFalsy (ApiKeyManager.getActiveKey st) then .err noApiKeyError
      else remote st n)
    id 2 2000 s
  match tr.outcome with
  | .success v => (some v, tr.events)
  | _ => (none, tr.events)

/-- generatePartDocumentation (src/services/geminiService.ts): the key is read
and tested before executeWithRetry ever runs; a falsy key returns undefined
immediately (no executor events).  Otherwise the remote body runs under
2 retries and 1500 ms base delay, with a catch turning a surfaced error into
undefined. -/
def generatePartDocumentation {τ : Type} (remote : KeyStore → Nat → OpResult τ String)
    (s : KeyStore) : Option τ × List RetryEvent :=
  if keyIsFalsy (ApiKeyManager.getActiveKey s) then (none, [])
  else
    let tr := executeWithRetry remote id 2 1500 s
    match tr.outcome with
    | .success v => (some v, tr.events)
    | _ => (none, tr.events)

/-- generateRealPartAbstract (src/services/geminiService.ts): same pre-flight
key test as generatePartDocumentation (returning null, modelled as none),
then 2 retries with 1500 ms base delay and a catch yielding null. -/
def generateRealPartAbstract {τ : Type} (remote : KeyStore → Nat → OpResult τ String)
    (s : KeyStore) : Option τ × List RetryEvent :=
  if keyIsFalsy (ApiKeyManager.getActiveKey s) then (none, [])
  else
    let tr := executeWithRetry remote id 2 1500 s
    match tr.outcome with
    | .success v => (some v, tr.events)
    | _ => (none, tr.events)

/-- Iterated rotation: the store after n successive tryRotateApiKey calls. -/
def rotateIter (s : KeyStore) : Nat → KeyStore
  | 0 => s
  | n + 1 => (tryRotateApiKey (rotateIter s n)).1

/-- One mutating operation of the store API, for stating invariants over
arbitrary operation sequences. -/
inductive StoreOp where
  | add (newId name key : String) (createdAt : Nat)
  | update (id name key : String)
  | delete (id : String)
  | setActive (id : String)
  | clearAll
  deriving DecidableEq, Repr

/-- Apply one store operation, keeping only the state (results dropped). -/
def applyOp (s : KeyStore) : StoreOp → KeyStore
  | .add newId name key createdAt => (ApiKeyManager.add s newId name key createdAt).1
  | .update id name key => (ApiKeyManager.update s id name key).1
  | .delete id => (ApiKeyManager.delete s id).1
  | .setActive id => (ApiKeyManager.setActive s id).1
  | .clearAll => ApiKeyManager.clearAll s

/-- The no-dangling-active invariant: the active pointer is unset or names an
entry currently in the list. -/
def activeConsistent (s : KeyStore) : Bool :=
  match s.activeId with
  | none => true
  | some a => s.keys.any (fun k => k.id == a)

/-- Concrete store holding exactly one credential, used to instantiate the
general theorems. -/
def storeOne : KeyStore :=
  { keys := [{ id := "key_1", name := "alpha", key := "k1", createdAt := 0 }],
    activeId := some "key_1" }

/-- Concrete store holding two credentials with the first one active. -/
def storeTwo : KeyStore :=
  { keys := [{ id := "key_1", name := "alpha", key := "k1", createdAt := 0 },
             { id := "key_2", name := "beta", key := "k2", createdAt := 1 }],
    activeId := some "key_1" }

/-- Concrete store holding three credentials with the first one active. -/
def storeABC : KeyStore :=
  { keys := [{ id := "key_a", name := "A", key := "ka", createdAt := 0 },
             { id := "key_b", name := "B", key := "kb", createdAt := 1 },
             { id := "key_c", name := "C", key := "kc", createdAt := 2 }],
    activeId := some "key_a" }

/-- Concrete store whose single, active credential stores the empty secret
(as results from adding a whitespace-only secret). -/
def storeEmptySecret : KeyStore :=
  { keys := [{ id := "key_1", name := "alpha", key := "", createdAt := 0 }],
    activeId := some "key_1" }

/-! ## Classifier lemmas -/

/-- startsWithChars tests exactly occurrence at the head. -/
lemma startsWithChars_iff (n : List Char) :
    ∀ h, startsWithChars n h = true ↔ ∃ t, n ++ t = h := by
  induction n with
  | nil => intro h; simp [startsWithChars]
  | cons c cs ih =>
    intro h
    cases h with
    | nil =>
      simp [startsWithChars]
    | cons d ds =>
      simp only [startsWithChars, Bool.and_eq_true, beq_iff_eq, ih ds, List.cons_append,
        List.cons.injEq]
      constructor
      · rintro ⟨rfl, t, rfl⟩
        exact ⟨t, rfl, rfl⟩
      · rintro ⟨t, rfl, rfl⟩
        exact ⟨rfl, t, rfl⟩

/-- containsChars tests exactly occurrence somewhere inside. -/
lemma containsChars_iff (n : List Char) :
    ∀ h, containsChars n h = true ↔ ∃ a b, a ++ n ++ b = h := by
  intro h
  induction h with
  | nil =>
    simp only [containsChars, startsWithChars_iff]
    constructor
    · rintro ⟨t, ht⟩
      rcases List.append_eq_nil.mp ht with ⟨rfl, rfl⟩
      exact ⟨[], [], rfl⟩
    · rintro ⟨a, b, hab⟩
      rcases List.append_eq_nil.mp (List.append_eq_nil.mp hab).1 with ⟨rfl, rfl⟩
      exact ⟨[], rfl⟩
  | cons d ds ih =>
    simp only [containsChars, Bool.or_eq_true, startsWithChars_iff, ih]
    constructor
    · rintro (⟨t, ht⟩ | ⟨a, b, hab⟩)
      · exact ⟨[], t, by simpa using ht⟩
      · exact ⟨d :: a, b, by simp [hab]⟩
    · rintro ⟨a, b, hab⟩
      cases a with
      | nil =>
        exact Or.inl ⟨b, by simpa using hab⟩
      | cons x xs =>
        rw [List.cons_append, List.cons_append] at hab
        obtain ⟨hx, h2⟩ := List.cons.inj hab
        exact Or.inr ⟨xs, b, h2⟩

/-- containsSub is exactly substring containment on strings. -/
lemma containsSub_iff (hay needle : String) :
    containsSub hay needle = true ↔ ∃ a b : String, a ++ needle ++ b = hay := by
  rw [containsSub, containsChars_iff]
  constructor
  · rintro ⟨a, b, hab⟩
    refine ⟨⟨a⟩, ⟨b⟩, String.ext ?_⟩
    simpa [String.data_append] using hab
  · rintro ⟨a, b, rfl⟩
    exact ⟨a.data, b.data, by simp [String.data_append]⟩

/-- C5: isRateLimitError returns true exactly when the error's textual
representation (the empty string for a null or absent error) contains one of
the case-sensitive substrings "429", "Too Many Requests",
"RESOURCE_EXHAUSTED" or "quota"; in particular it returns false for an
absent error.  The model is a total function, so no input makes it throw. -/
theorem c5_classifier_spec (error : Option String) :
    (isRateLimitError error = true ↔
      ∃ a b : String,
        a ++ "429" ++ b = error.getD "" ∨
        a ++ "Too Many Requests" ++ b = error.getD "" ∨
        a ++ "RESOURCE_EXHAUSTED" ++ b = error.getD "" ∨
        a ++ "quota" ++ b = error.getD "") ∧
    isRateLimitError none = false := by
  constructor
  · have hstr : (match error with | none => "" | some s => s) = error.getD "" := by
      cases error <;> rfl
    simp only [isRateLimitError, hstr, Bool.or_eq_true, containsSub_iff]
    constructor
    · rintro (((⟨a, b, hsub⟩ | ⟨a, b, hsub⟩) | ⟨a, b, hsub⟩) | ⟨a, b, hsub⟩)
      · exact ⟨a, b, Or.inl hsub⟩
      · exact ⟨a, b, Or.inr (Or.inl hsub)⟩
      · exact ⟨a, b, Or.inr (Or.inr (Or.inl hsub))⟩
      · exact ⟨a, b, Or.inr (Or.inr (Or.inr hsub))⟩
    · rintro ⟨a, b, (hsub | hsub | hsub | hsub)⟩
      · exact Or.inl (Or.inl (Or.inl ⟨a, b, hsub⟩))
      · exact Or.inl (Or.inl (Or.inr ⟨a, b, hsub⟩))
      · exact Or.inl (Or.inr ⟨a, b, hsub⟩)
      · exact Or.inr ⟨a, b, hsub⟩
  · decide

/-! ## Rotation lemmas -/

/-- A store with at most one credential never rotates and is left intact. -/
lemma tryRotateApiKey_of_le_one (s : KeyStore) (h : s.keys.length ≤ 1) :
    tryRotateApiKey s = (s, false) := by
  simp [tryRotateApiKey, ApiKeyManager.getAll, ApiKeyManager.getActiveId, h]

/-- C8: with 0 or 1 stored credentials, rotateToNext returns false and the
whole store state, activeId included, is unchanged. -/
theorem c8_rotate_noop (s : KeyStore) (h : s.keys.length ≤ 1) :
    tryRotateApiKey s = (s, false) :=
  tryRotateApiKey_of_le_one s h

/-- Witness for C8 at the empty store and a one-credential store. -/
theorem c8_rotate_noop_witness :
    tryRotateApiKey emptyStore = (emptyStore, false) ∧
    tryRotateApiKey storeOne = (storeOne, false) :=
  ⟨c8_rotate_noop emptyStore (by decide), c8_rotate_noop storeOne (by decide)⟩


/-! ## Executor schedule lemmas -/

/-- One-step unfolding of the retry loop with fuel left, stated once so later
proofs can rewrite a single layer at a time. -/
lemma runRetry_succ_eq {τ ε : Type} (op : KeyStore → Nat → OpResult τ ε) (errText : ε → String)
    (maxRetries baseDelay remaining attempt : Nat) (s : KeyStore) (lastError : Option ε) :
    runRetry op errText maxRetries baseDelay (remaining + 1) attempt s lastError =
      (let preEvents : List RetryEvent :=
        if 0 < attempt then [.sleep (baseDelay * 2 ^ (attempt - 1))] else []
      match op s (attempt + 1) with
      | .ok v =>
        { events := preEvents ++ [.invoke (attempt + 1)],
          outcome := .success v, finalStore := s }
      | .err e =>
        if isRateLimitError (some (errText e)) = true ∧ attempt < maxRetries - 1 then
          let rotated := tryRotateApiKey s
          if rotated.2 then
            let rest := runRetry op errText maxRetries baseDelay remaining (attempt + 1)
              rotated.1 (some e)
            { events := preEvents ++ [.invoke (attempt + 1), .rotate true] ++ rest.events,
              outcome := rest.outcome, finalStore := rest.finalStore }
          else
            let rest := runRetry op errText maxRetries baseDelay remaining (attempt + 1)
              rotated.1 (some e)
            { events := preEvents ++
                [.invoke (attempt + 1), .rotate false, .sleep (5000 * (attempt + 1))] ++
                rest.events,
              outcome := rest.outcome, finalStore := rest.finalStore }
        else
          if attempt = maxRetries - 1 then
            { events := preEvents ++ [.invoke (attempt + 1)],
              outcome := .failure e, finalStore := s }
          else
            let rest := runRetry op errText maxRetries baseDelay remaining (attempt + 1)
              s (some e)
            { events := preEvents ++ [.invoke (attempt + 1)] ++ rest.events,
              outcome := rest.outcome, finalStore := rest.finalStore }) := rfl

/-- Retry loop under an operation that always rejects with a non-rate-limit
error: every remaining iteration runs, each one after the first preceded only
by its exponential backoff sleep, and the loop ends by throwing the last
attempt's error with the store untouched. -/
lemma runRetry_nonRL {τ ε : Type} (op : KeyStore → Nat → OpResult τ ε) (errText : ε → String)
    (f : KeyStore → Nat → ε) (hop : ∀ st n, op st n = .err (f st n))
    (hrl : ∀ st n, isRateLimitError (some (errText (f st n))) = false)
    (maxRetries baseDelay : Nat) :
    ∀ remaining, ∀ attempt s lastError, attempt + remaining = maxRetries → remaining ≠ 0 →
      runRetry op errText maxRetries baseDelay remaining attempt s lastError =
        { events := (if 0 < attempt then [RetryEvent.sleep (baseDelay * 2 ^ (attempt - 1))]
              else []) ++
            RetryEvent.invoke (attempt + 1) ::
              ((List.range' (attempt + 2) (remaining - 1)).flatMap
                (fun n => [RetryEvent.sleep (baseDelay * 2 ^ (n - 2)), RetryEvent.invoke n])),
          outcome := .failure (f s maxRetries),
          finalStore := s } := by
  intro remaining
  induction remaining with
  | zero =>
    intro attempt s lastError _ h0
    exact absurd rfl h0
  | succ r ih =>
    intro attempt s lastError hsum _
    rw [runRetry_succ_eq, hop s (attempt + 1)]
    simp only [hrl, Bool.false_eq_true, false_and, if_false]
    cases r with
    | zero =>
      rw [if_pos (show attempt = maxRetries - 1 by omega)]
      have hmr : attempt + 1 = maxRetries := by omega
      simp [hmr]
    | succ r1 =>
      rw [if_neg (show ¬attempt = maxRetries - 1 by omega)]
      rw [ih (attempt + 1) s (some (f s (attempt + 1))) (by omega) (by omega)]
      simp [List.range'_succ, Nat.add_sub_cancel]

/-- C3: an operation failing on every attempt with a non-rate-limit error is
invoked exactly maxAttempts times (invoke events 1..maxAttempts), attempt 1
runs with no preceding delay, every later attempt n is preceded by exactly
one suspension of baseDelay * 2 ^ (n - 2), and the Executor then raises the
final attempt's error.  No rotation happens, so the store is unchanged. -/
theorem c3_backoff_schedule {τ ε : Type} (op : KeyStore → Nat → OpResult τ ε)
    (errText : ε → String) (f : KeyStore → Nat → ε)
    (hop : ∀ st n, op st n = .err (f st n))
    (hrl : ∀ st n, isRateLimitError (some (errText (f st n))) = false)
    (maxAttempts baseDelay : Nat) (hmax : 1 ≤ maxAttempts) (s : KeyStore) :
    executeWithRetry op errText maxAttempts baseDelay s =
      { events := RetryEvent.invoke 1 ::
          ((List.range' 2 (maxAttempts - 1)).flatMap
            (fun n => [RetryEvent.sleep (baseDelay * 2 ^ (n - 2)), RetryEvent.invoke n])),
        outcome := .failure (f s maxAttempts),
        finalStore := s } := by
  have h := runRetry_nonRL op errText f hop hrl maxAttempts baseDelay maxAttempts 0 s none
    (by omega) (by omega)
  simpa [executeWithRetry] using h

/-- Witness for C3 at maxAttempts = 3, baseDelay = 3000 and an operation that
always rejects with a non-rate-limit error. -/
theorem c3_backoff_schedule_witness :
    (executeWithRetry (fun _ _ => OpResult.err "network unreachable") id 3 3000 emptyStore :
      RetryTrace Nat String) =
      { events := [.invoke 1, .sleep 3000, .invoke 2, .sleep 6000, .invoke 3],
        outcome := .failure "network unreachable",
        finalStore := emptyStore } := by
  have hc : isRateLimitError (some "network unreachable") = false := by decide
  have h := c3_backoff_schedule (τ := Nat) (fun _ _ => OpResult.err "network unreachable") id
    (fun _ _ => "network unreachable") (fun _ _ => rfl) (fun _ _ => hc)
    3 3000 (by omega) emptyStore
  rw [h]
  rfl

/-- Retry loop under an always-rate-limited operation when the store holds at
most one credential: rotation is attempted before each non-final retry and
fails, adding the 5000 ms * n cooldown after failed attempt n on top of the
exponential backoff, and the loop ends by throwing the last attempt's error
with the store untouched. -/
lemma runRetry_singleRL {τ ε : Type} (op : KeyStore → Nat → OpResult τ ε) (errText : ε → String)
    (f : KeyStore → Nat → ε) (hop : ∀ st n, op st n = .err (f st n))
    (hrl : ∀ st n, isRateLimitError (some (errText (f st n))) = true)
    (maxRetries baseDelay : Nat) :
    ∀ remaining, ∀ attempt s lastError, s.keys.length ≤ 1 →
      attempt + remaining = maxRetries → remaining ≠ 0 →
      runRetry op errText maxRetries baseDelay remaining attempt s lastError =
        { events := (if 0 < attempt then [RetryEvent.sleep (baseDelay * 2 ^ (attempt - 1))]
              else []) ++
            RetryEvent.invoke (attempt + 1) ::
              ((List.range' (attempt + 2) (remaining - 1)).flatMap
                (fun n => [RetryEvent.rotate false, RetryEvent.sleep (5000 * (n - 1)),
                  RetryEvent.sleep (baseDelay * 2 ^ (n - 2)), RetryEvent.invoke n])),
          outcome := .failure (f s maxRetries),
          finalStore := s } := by
  intro remaining
  induction remaining with
  | zero =>
    intro attempt s lastError _ _ h0
    exact absurd rfl h0
  | succ r ih =>
    intro attempt s lastError hlen hsum _
    rw [runRetry_succ_eq, hop s (attempt + 1)]
    cases r with
    | zero =>
      simp only [(show ¬attempt < maxRetries - 1 by omega), and_false, if_false]
      rw [if_pos (show attempt = maxRetries - 1 by omega)]
      have hmr : attempt + 1 = maxRetries := by omega
      simp [hmr]
    | succ r1 =>
      simp only [hrl, (show attempt < maxRetries - 1 by omega), true_and, and_true,
        eq_self_iff_true, if_true, tryRotateApiKey_of_le_one s hlen,
        Bool.false_eq_true, if_false]
      rw [ih (attempt + 1) s (some (f s (attempt + 1))) hlen (by omega) (by omega)]
      have h51 : attempt + 2 - 1 = attempt + 1 := by omega
      simp [List.range'_succ, Nat.add_sub_cancel, h51]

/-- Counterexample for C2 as stated: with exactly one credential, a
rate-limit error on every attempt, maxAttempts = 2 and baseDelay = 1000, the
only suspensions between attempt 1 and attempt 2 are the failed-rotation
cooldown of 5000 ms and the backoff of 1000 ms, totalling 6000 ms; the
claimed formula baseDelay * 2 ^ (n - 2) + 5000 * n gives 11000 ms for n = 2.
The cooldown after failed attempt n - 1 is 5000 * (n - 1), not 5000 * n. -/
theorem c2_cooldown_counterexample :
    (executeWithRetry (fun _ _ => OpResult.err "429") id 2 1000 storeOne :
      RetryTrace Nat String).events =
      [.invoke 1, .rotate false, .sleep 5000, .sleep 1000, .invoke 2] ∧
    5000 + 1000 ≠ 1000 * 2 ^ (2 - 2) + 5000 * 2 := by
  constructor
  · rfl
  · decide

/-- C2 as amended: with exactly one credential and an operation failing with
a rate-limit-classified error on every attempt, every rotation attempt
returns false, and the total suspension between attempt n - 1 and attempt n
equals 5000 ms * (n - 1) (the failed-rotation cooldown after attempt n - 1)
plus baseDelay * 2 ^ (n - 2) (the backoff before attempt n), for every n
from 2 to maxAttempts; the run ends by raising the final attempt's error
with the store unchanged. -/
theorem c2_single_credential_schedule {τ ε : Type} (op : KeyStore → Nat → OpResult τ ε)
    (errText : ε → String) (f : KeyStore → Nat → ε)
    (hop : ∀ st n, op st n = .err (f st n))
    (hrl : ∀ st n, isRateLimitError (some (errText (f st n))) = true)
    (maxAttempts baseDelay : Nat) (hmax : 1 ≤ maxAttempts)
    (s : KeyStore) (hs : s.keys.length = 1) :
    executeWithRetry op errText maxAttempts baseDelay s =
      { events := RetryEvent.invoke 1 ::
          ((List.range' 2 (maxAttempts - 1)).flatMap
            (fun n => [RetryEvent.rotate false, RetryEvent.sleep (5000 * (n - 1)),
              RetryEvent.sleep (baseDelay * 2 ^ (n - 2)), RetryEvent.invoke n])),
        outcome := .failure (f s maxAttempts),
        finalStore := s } := by
  have h := runRetry_singleRL op errText f hop hrl maxAttempts baseDelay maxAttempts 0 s none
    (by omega) (by omega) (by omega)
  simpa [executeWithRetry] using h

/-- Witness for the amended C2 at maxAttempts = 3, baseDelay = 1000 and a
one-credential store. -/
theorem c2_single_credential_schedule_witness :
    (executeWithRetry (fun _ _ => OpResult.err "429") id 3 1000 storeOne :
      RetryTrace Nat String) =
      { events := [.invoke 1, .rotate false, .sleep 5000, .sleep 1000, .invoke 2,
          .rotate false, .sleep 10000, .sleep 2000, .invoke 3],
        outcome := .failure "429",
        finalStore := storeOne } := by
  have hc : isRateLimitError (some "429") = true := by decide
  have h := c2_single_credential_schedule (τ := Nat) (fun _ _ => OpResult.err "429") id
    (fun _ _ => "429") (fun _ _ => rfl) (fun _ _ => hc) 3 1000 (by omega) storeOne (by decide)
  rw [h]
  rfl

/-- The loop either returns a value that some invocation of the operation
resolved with, or raises verbatim the error which the operation rejected
with at the very last attempt (attempt number maxRetries); in particular it
never throws the undefined lastError sentinel. -/
lemma runRetry_outcome {τ ε : Type} (op : KeyStore → Nat → OpResult τ ε) (errText : ε → String)
    (maxRetries baseDelay : Nat) :
    ∀ remaining, ∀ attempt s lastError, attempt + remaining = maxRetries → remaining ≠ 0 →
      (∃ st n v, 1 ≤ n ∧ n ≤ maxRetries ∧ op st n = .ok v ∧
        (runRetry op errText maxRetries baseDelay remaining attempt s lastError).outcome =
          .success v) ∨
      (∃ st e, op st maxRetries = .err e ∧
        (runRetry op errText maxRetries baseDelay remaining attempt s lastError).outcome =
          .failure e) := by
  intro remaining
  induction remaining with
  | zero =>
    intro attempt s lastError _ h0
    exact absurd rfl h0
  | succ r ih =>
    intro attempt s lastError hsum _
    rw [runRetry_succ_eq]
    cases hcall : op s (attempt + 1) with
    | ok v =>
      exact Or.inl ⟨s, attempt + 1, v, by omega, by omega, hcall, by simp⟩
    | err e =>
      cases r with
      | zero =>
        have hmr : attempt + 1 = maxRetries := by omega
        by_cases hc : isRateLimitError (some (errText e)) = true ∧ attempt < maxRetries - 1
        · exact absurd hc.2 (by omega)
        · refine Or.inr ⟨s, e, hmr ▸ hcall, ?_⟩
          simp [hc, show attempt = maxRetries - 1 by omega]
      | succ r1 =>
        by_cases hc : isRateLimitError (some (errText e)) = true ∧ attempt < maxRetries - 1
        · rcases hrot : (tryRotateApiKey s).2 with hfalse | htrue
          · rcases ih (attempt + 1) (tryRotateApiKey s).1 (some e) (by omega) (by omega) with
              ⟨st, n, v, h1, h2, h3, h4⟩ | ⟨st, e2, h3, h4⟩
            · exact Or.inl ⟨st, n, v, h1, h2, h3, by simp [hc, hrot, h4]⟩
            · exact Or.inr ⟨st, e2, h3, by simp [hc, hrot, h4]⟩
          · rcases ih (attempt + 1) (tryRotateApiKey s).1 (some e) (by omega) (by omega) with
              ⟨st, n, v, h1, h2, h3, h4⟩ | ⟨st, e2, h3, h4⟩
            · exact Or.inl ⟨st, n, v, h1, h2, h3, by simp [hc, hrot, h4]⟩
            · exact Or.inr ⟨st, e2, h3, by simp [hc, hrot, h4]⟩
        · have hne : ¬attempt = maxRetries - 1 := by omega
          rcases ih (attempt + 1) s (some e) (by omega) (by omega) with
            ⟨st, n, v, h1, h2, h3, h4⟩ | ⟨st, e2, h3, h4⟩
          · exact Or.inl ⟨st, n, v, h1, h2, h3, by simp [hc, hne, h4]⟩
          · exact Or.inr ⟨st, e2, h3, by simp [hc, hne, h4]⟩

/-- C6: whichever way an executeWithRetry run ends, a surfaced error is
exactly the error value which the wrapped operation rejected with on its
final attempt (attempt number maxAttempts) — propagated verbatim, never
wrapped — and this is the only way an error surfaces: otherwise the run
returns a value which some invocation of the operation resolved with. -/
theorem c6_terminal_error_verbatim {τ ε : Type} (op : KeyStore → Nat → OpResult τ ε)
    (errText : ε → String) (maxAttempts baseDelay : Nat) (hmax : 1 ≤ maxAttempts)
    (s : KeyStore) :
    (∃ st n v, 1 ≤ n ∧ n ≤ maxAttempts ∧ op st n = .ok v ∧
      (executeWithRetry op errText maxAttempts baseDelay s).outcome = .success v) ∨
    (∃ st e, op st maxAttempts = .err e ∧
      (executeWithRetry op errText maxAttempts baseDelay s).outcome = .failure e) :=
  runRetry_outcome op errText maxAttempts baseDelay maxAttempts 0 s none
    (by omega) (by omega)

/-- Witness for C6 with a single always-failing attempt. -/
theorem c6_terminal_error_verbatim_witness :
    (∃ st n v, 1 ≤ n ∧ n ≤ 1 ∧
      (fun (_ : KeyStore) (_ : Nat) => OpResult.err (τ := Nat) "boom") st n = .ok v ∧
      (executeWithRetry (fun (_ : KeyStore) (_ : Nat) => OpResult.err (τ := Nat) "boom")
        id 1 1000 emptyStore).outcome = .success v) ∨
    (∃ st e, (fun (_ : KeyStore) (_ : Nat) => OpResult.err (τ := Nat) "boom") st 1 = .err e ∧
      (executeWithRetry (fun (_ : KeyStore) (_ : Nat) => OpResult.err (τ := Nat) "boom")
        id 1 1000 emptyStore).outcome = .failure e) :=
  c6_terminal_error_verbatim (fun _ _ => OpResult.err "boom") id 1 1000 (by omega) emptyStore

/-! ## Facade lemmas -/

/-- Variant of the non-rate-limit schedule for an operation that rejects on
every attempt at one fixed store (sufficient for the facades, whose wrapped
body fails at the key check before any rotation can change the store). -/
lemma runRetry_nonRL_fixed {τ ε : Type} (op : KeyStore → Nat → OpResult τ ε)
    (errText : ε → String) (g : Nat → ε) (s : KeyStore)
    (hop : ∀ n, op s n = .err (g n))
    (hrl : ∀ n, isRateLimitError (some (errText (g n))) = false)
    (maxRetries baseDelay : Nat) :
    ∀ remaining, ∀ attempt lastError, attempt + remaining = maxRetries → remaining ≠ 0 →
      runRetry op errText maxRetries baseDelay remaining attempt s lastError =
        { events := (if 0 < attempt then [RetryEvent.sleep (baseDelay * 2 ^ (attempt - 1))]
              else []) ++
            RetryEvent.invoke (attempt + 1) ::
              ((List.range' (attempt + 2) (remaining - 1)).flatMap
                (fun n => [RetryEvent.sleep (baseDelay * 2 ^ (n - 2)), RetryEvent.invoke n])),
          outcome := .failure (g maxRetries),
          finalStore := s } := by
  intro remaining
  induction remaining with
  | zero =>
    intro attempt lastError _ h0
    exact absurd rfl h0
  | succ r ih =>
    intro attempt lastError hsum _
    rw [runRetry_succ_eq, hop (attempt + 1)]
    simp only [hrl, Bool.false_eq_true, false_and, if_false]
    cases r with
    | zero =>
      rw [if_pos (show attempt = maxRetries - 1 by omega)]
      have hmr : attempt + 1 = maxRetries := by omega
      simp [hmr]
    | succ r1 =>
      rw [if_neg (show ¬attempt = maxRetries - 1 by omega)]
      rw [ih (attempt + 1) (some (g (attempt + 1))) (by omega) (by omega)]
      simp [List.range'_succ, Nat.add_sub_cancel]

/-- Behaviour of all four facades when the active key is falsy (absent or
empty).  generatePartDocumentation and generateRealPartAbstract return their
absent sentinel before the Executor runs; generateDesigns and
generateImageForDesign only discover the missing key inside the retried
operation, so the Executor runs its full schedule, retrying the
configuration error with backoff, and the result is independent of the
remote body (the remote call is never reached). -/
lemma facadesWithFalsyKey (s : KeyStore)
    (h : keyIsFalsy (ApiKeyManager.getActiveKey s) = true) :
    (∀ (τ : Type) (remote : KeyStore → Nat → OpResult τ String),
      generatePartDocumentation remote s = (none, [])) ∧
    (∀ (τ : Type) (remote : KeyStore → Nat → OpResult τ String),
      generateRealPartAbstract remote s = (none, [])) ∧
    (∀ (τ : Type) (remote : KeyStore → Nat → OpResult τ String),
      generateDesigns remote s =
        { events := [.invoke 1, .sleep 3000, .invoke 2, .sleep 6000, .invoke 3],
          outcome := .failure noApiKeyError, finalStore := s }) ∧
    (∀ (τ : Type) (remote : KeyStore → Nat → OpResult τ String),
      generateImageForDesign remote s =
        (none, [.invoke 1, .sleep 2000, .invoke 2])) := by
  have hnoRL : ∀ n : Nat, isRateLimitError (some (id noApiKeyError)) = false := by
    intro n; decide
  refine ⟨?_, ?_, ?_, ?_⟩
  · intro τ remote
    simp [generatePartDocumentation, h]
  · intro τ remote
    simp [generateRealPartAbstract, h]
  · intro τ remote
    have hop : ∀ n : Nat,
        (if keyIsFalsy (ApiKeyManager.getActiveKey s) then OpResult.err noApiKeyError
          else remote s n) = OpResult.err noApiKeyError := by
      intro n; simp [h]
    have h3 := runRetry_nonRL_fixed
      (fun st n => if keyIsFalsy (ApiKeyManager.getActiveKey st) then .err noApiKeyError
        else remote st n)
      id (fun _ => noApiKeyError) s hop (fun n => hnoRL n) 3 3000 3 0 none
      (by omega) (by omega)
    simpa [generateDesigns, executeWithRetry, List.range'] using h3
  · intro τ remote
    have hop : ∀ n : Nat,
        (if keyIsFalsy (ApiKeyManager.getActiveKey s) then OpResult.err noApiKeyError
          else remote s n) = OpResult.err noApiKeyError := by
      intro n; simp [h]
    have h2 := runRetry_nonRL_fixed
      (fun st n => if keyIsFalsy (ApiKeyManager.getActiveKey st) then .err noApiKeyError
        else remote st n)
      id (fun _ => noApiKeyError) s hop (fun n => hnoRL n) 2 2000 2 0 none
      (by omega) (by omega)
    simp only [generateImageForDesign, executeWithRetry] at h2 ⊢
    rw [h2]
    simp [List.range']

/-- Counterexample for C1 as stated: with no credential configured (empty
store), generateDesigns does not fail fast before the retry loop — its
wrapped operation is invoked three times, backoff sleeps of 3000 ms and
6000 ms occur between the attempts, and only then is the configuration
error raised. -/
theorem c1_no_credential_counterexample :
    (generateDesigns (fun _ _ => OpResult.ok 0) emptyStore).events =
      [.invoke 1, .sleep 3000, .invoke 2, .sleep 6000, .invoke 3] ∧
    (generateDesigns (fun _ _ => OpResult.ok 0) emptyStore).outcome =
      RetryOutcome.failure noApiKeyError := by
  constructor
  · rfl
  · rfl

/-- C1 as amended: with a falsy active key (no credential, or an empty
secret), generatePartDocumentation and generateRealPartAbstract do fail fast
with their benign absent result before the Executor runs (no events at all);
but generateDesigns and generateImageForDesign perform the credential check
inside the retried operation, so the operation is invoked on every attempt,
backoff delays occur, and the configuration error surfaces only after the
whole budget (generateImageForDesign then softens it to an absent result).
In every case the result is independent of the remote body: the actual
remote call is never reached. -/
theorem c1_facade_credential_check (s : KeyStore)
    (h : keyIsFalsy (ApiKeyManager.getActiveKey s) = true) :
    (∀ (τ : Type) (remote : KeyStore → Nat → OpResult τ String),
      generatePartDocumentation remote s = (none, [])) ∧
    (∀ (τ : Type) (remote : KeyStore → Nat → OpResult τ String),
      generateRealPartAbstract remote s = (none, [])) ∧
    (∀ (τ : Type) (remote : KeyStore → Nat → OpResult τ String),
      generateDesigns remote s =
        { events := [.invoke 1, .sleep 3000, .invoke 2, .sleep 6000, .invoke 3],
          outcome := .failure noApiKeyError, finalStore := s }) ∧
    (∀ (τ : Type) (remote : KeyStore → Nat → OpResult τ String),
      generateImageForDesign remote s =
        (none, [.invoke 1, .sleep 2000, .invoke 2])) :=
  facadesWithFalsyKey s h

/-- Witness for the amended C1 at the empty store. -/
theorem c1_facade_credential_check_witness :
    generatePartDocumentation (fun _ _ => OpResult.ok (0 : Nat)) emptyStore = (none, []) ∧
    generateRealPartAbstract (fun _ _ => OpResult.ok (0 : Nat)) emptyStore = (none, []) ∧
    generateDesigns (fun _ _ => OpResult.ok (0 : Nat)) emptyStore =
      { events := [.invoke 1, .sleep 3000, .invoke 2, .sleep 6000, .invoke 3],
        outcome := .failure noApiKeyError, finalStore := emptyStore } ∧
    generateImageForDesign (fun _ _ => OpResult.ok (0 : Nat)) emptyStore =
      (none, [.invoke 1, .sleep 2000, .invoke 2]) := by
  have h := c1_facade_credential_check emptyStore (by decide)
  exact ⟨h.1 Nat _, h.2.1 Nat _, h.2.2.1 Nat _, h.2.2.2 Nat _⟩

/-- C10: when the active credential's stored secret is the empty string —
as happens after adding a whitespace-only secret, which trimming reduces to
empty — getActiveKey returns the empty string, the facades' falsiness check
trips exactly as with no credential at all, and no remote call is attempted
with that credential: the two pre-flight facades return their absent result
with no executor events, and the two in-loop facades retry the
configuration error without ever reaching the remote body. -/
theorem c10_empty_secret_is_no_credential (s : KeyStore) (entry : ApiKeyEntry)
    (hact : ApiKeyManager.getActive s = some entry) (hkey : entry.key = "") :
    ApiKeyManager.getActiveKey s = some "" ∧
    keyIsFalsy (ApiKeyManager.getActiveKey s) = true ∧
    (∀ st newId name c, ((ApiKeyManager.add st newId name "   " c).2).key = "") ∧
    (∀ (τ : Type) (remote : KeyStore → Nat → OpResult τ String),
      generatePartDocumentation remote s = (none, [])) ∧
    (∀ (τ : Type) (remote : KeyStore → Nat → OpResult τ String),
      generateRealPartAbstract remote s = (none, [])) ∧
    (∀ (τ : Type) (remote : KeyStore → Nat → OpResult τ String),
      generateDesigns remote s =
        { events := [.invoke 1, .sleep 3000, .invoke 2, .sleep 6000, .invoke 3],
          outcome := .failure noApiKeyError, finalStore := s }) ∧
    (∀ (τ : Type) (remote : KeyStore → Nat → OpResult τ String),
      generateImageForDesign remote s =
        (none, [.invoke 1, .sleep 2000, .invoke 2])) := by
  have hk : ApiKeyManager.getActiveKey s = some "" := by
    rw [ApiKeyManager.getActiveKey, hact, Option.map_some']
    rw [hkey]
  have hfalsy : keyIsFalsy (ApiKeyManager.getActiveKey s) = true := by
    rw [hk]; rfl
  have hf := facadesWithFalsyKey s hfalsy
  refine ⟨hk, hfalsy, ?_, hf.1, hf.2.1, hf.2.2.1, hf.2.2.2⟩
  intro st newId name c
  have htrim : trimStr "   " = "" := by decide
  simp only [ApiKeyManager.add]
  split <;> simp [htrim]

/-- Witness for C10 at a one-credential store whose active secret is the
empty string. -/
theorem c10_empty_secret_is_no_credential_witness :
    ApiKeyManager.getActiveKey storeEmptySecret = some "" ∧
    generatePartDocumentation (fun _ _ => OpResult.ok (0 : Nat)) storeEmptySecret =
      (none, []) ∧
    generateDesigns (fun _ _ => OpResult.ok (0 : Nat)) storeEmptySecret =
      { events := [.invoke 1, .sleep 3000, .invoke 2, .sleep 6000, .invoke 3],
        outcome := .failure noApiKeyError, finalStore := storeEmptySecret } := by
  have h := c10_empty_secret_is_no_credential storeEmptySecret
    { id := "key_1", name := "alpha", key := "", createdAt := 0 } (by decide) rfl
  exact ⟨h.1, h.2.2.2.1 Nat _, h.2.2.2.2.2.1 Nat _⟩

/-! ## Store lemmas -/

/-- Filtering out one present id from a nodup-id list removes exactly one
entry. -/
lemma length_filter_ne_of_nodup :
    ∀ (l : List ApiKeyEntry) (id : String), (l.map ApiKeyEntry.id).Nodup →
      id ∈ l.map ApiKeyEntry.id →
      (l.filter (fun k => !(k.id == id))).length + 1 = l.length := by
  intro l id
  induction l with
  | nil =>
    intro _ h
    simp at h
  | cons a t ih =>
    intro hnd hmem
    rw [List.map_cons, List.nodup_cons] at hnd
    rw [List.map_cons, List.mem_cons] at hmem
    rcases hmem with heq | hmem
    · have hft : t.filter (fun k => !(k.id == id)) = t := by
        rw [List.filter_eq_self]
        intro k hk
        have hkne : k.id ≠ id := by
          intro hcontra
          exact hnd.1 (heq ▸ hcontra ▸ List.mem_map_of_mem ApiKeyEntry.id hk)
        simp [hkne]
      rw [List.filter_cons, if_neg (by simp [heq])]
      simp [hft]
    · have hane : a.id ≠ id := by
        intro hcontra
        exact hnd.1 (hcontra ▸ hmem)
      rw [List.filter_cons, if_pos (by simp [hane])]
      simp only [List.length_cons]
      rw [← ih hnd.2 hmem]

/-- Value of delete when the id is present (the filtered list is shorter):
it returns true, stores the filtered list, and reassigns or keeps the active
pointer depending on whether the deleted id was active. -/
lemma delete_found (s : KeyStore) (id : String)
    (hne : (s.keys.filter (fun k => !(k.id == id))).length ≠ s.keys.length) :
    ApiKeyManager.delete s id =
      (if s.activeId = some id then
        { keys := s.keys.filter (fun k => !(k.id == id)),
          activeId := ((s.keys.filter (fun k => !(k.id == id))).head?).map ApiKeyEntry.id }
       else
        { keys := s.keys.filter (fun k => !(k.id == id)), activeId := s.activeId }, true) := by
  simp only [ApiKeyManager.delete]
  rw [if_neg hne]
  by_cases ha : s.activeId = some id
  · rw [if_pos (show (s.activeId == some id) = true by simp [ha]), if_pos ha]
    cases hf : s.keys.filter (fun k => !(k.id == id)) with
    | nil => simp
    | cons first rest =>
      simp [ApiKeyManager.setActive]
  · rw [if_neg (show ¬(s.activeId == some id) = true by simp [ha]), if_neg ha]

/-- C7: delete(id) returns false and changes nothing when no entry has that
id; otherwise (with the store invariant that ids are unique) it removes
exactly that entry and returns true, and if the deleted entry was active the
pointer is reassigned to the first remaining entry in stored order, or
cleared when the store becomes empty; deleting a non-active entry leaves the
pointer untouched. -/
theorem c7_delete_spec (s : KeyStore) (id : String) :
    (id ∉ s.keys.map ApiKeyEntry.id → ApiKeyManager.delete s id = (s, false)) ∧
    ((s.keys.map ApiKeyEntry.id).Nodup → id ∈ s.keys.map ApiKeyEntry.id →
      (ApiKeyManager.delete s id).2 = true ∧
      (ApiKeyManager.delete s id).1.keys = s.keys.filter (fun k => !(k.id == id)) ∧
      (ApiKeyManager.delete s id).1.keys.length + 1 = s.keys.length ∧
      (s.activeId = some id →
        (ApiKeyManager.delete s id).1.activeId =
          ((s.keys.filter (fun k => !(k.id == id))).head?).map ApiKeyEntry.id) ∧
      (s.activeId ≠ some id → (ApiKeyManager.delete s id).1.activeId = s.activeId)) := by
  constructor
  · intro hnot
    have hfe : s.keys.filter (fun k => !(k.id == id)) = s.keys := by
      rw [List.filter_eq_self]
      intro k hk
      have hkne : k.id ≠ id := fun he => hnot (he ▸ List.mem_map_of_mem ApiKeyEntry.id hk)
      simp [hkne]
    simp [ApiKeyManager.delete, hfe]
  · intro hnd hmem
    have hlen := length_filter_ne_of_nodup s.keys id hnd hmem
    have hne : (s.keys.filter (fun k => !(k.id == id))).length ≠ s.keys.length := by omega
    rw [delete_found s id hne]
    by_cases ha : s.activeId = some id
    · rw [if_pos ha]
      exact ⟨rfl, rfl, hlen, fun _ => rfl, fun h => absurd ha h⟩
    · rw [if_neg ha]
      exact ⟨rfl, rfl, hlen, fun h => absurd h ha, fun _ => rfl⟩

/-- Witness for C7: deleting the active first credential of a two-credential
store activates the second; deleting an unknown id changes nothing. -/
theorem c7_delete_spec_witness :
    ApiKeyManager.delete storeTwo "unknown" = (storeTwo, false) ∧
    (ApiKeyManager.delete storeTwo "key_1").2 = true ∧
    (ApiKeyManager.delete storeTwo "key_1").1.activeId =
      ((storeTwo.keys.filter (fun k => !(k.id == "key_1"))).head?).map ApiKeyEntry.id := by
  refine ⟨(c7_delete_spec storeTwo "unknown").1 (by decide), ?_, ?_⟩
  · exact ((c7_delete_spec storeTwo "key_1").2 (by decide) (by decide)).1
  · exact ((c7_delete_spec storeTwo "key_1").2 (by decide) (by decide)).2.2.2.1 (by decide)

/-- Propositional reading of the no-dangling-active invariant. -/
lemma activeConsistent_iff (s : KeyStore) :
    activeConsistent s = true ↔
      s.activeId = none ∨ ∃ k ∈ s.keys, s.activeId = some k.id := by
  cases hs : s.activeId with
  | none => simp [activeConsistent, hs]
  | some a =>
    simp only [activeConsistent, hs, List.any_eq_true, beq_iff_eq, Option.some.injEq,
      reduceCtorEq, false_or]
    constructor
    · rintro ⟨k, hk, rfl⟩
      exact ⟨k, hk, rfl⟩
    · rintro ⟨k, hk, rfl⟩
      exact ⟨k, hk, rfl⟩

/-- Replacing an element of a list by itself changes nothing. -/
lemma list_set_self {α : Type} :
    ∀ (l : List α) (i : Nat) (h : i < l.length), l.set i (l.get ⟨i, h⟩) = l := by
  intro l
  induction l with
  | nil =>
    intro i h
    simp at h
  | cons a t ih =>
    intro i h
    cases i with
    | zero => rfl
    | succ j =>
      have := ih j (by simpa using h)
      simpa [List.set] using this

/-- Testing an id over the entries equals testing it over the mapped ids. -/
lemma any_id_beq (l : List ApiKeyEntry) (a : String) :
    ((l.map ApiKeyEntry.id).any fun x => x == a) = l.any fun k => k.id == a := by
  induction l with
  | nil => rfl
  | cons b t ih => simp [List.any_cons, ih]

/-- The invariant only depends on the active pointer and the id list. -/
lemma activeConsistent_congr (s s' : KeyStore) (hid : s'.activeId = s.activeId)
    (hkeys : s'.keys.map ApiKeyEntry.id = s.keys.map ApiKeyEntry.id) :
    activeConsistent s' = activeConsistent s := by
  unfold activeConsistent
  rw [hid]
  cases s.activeId with
  | none => rfl
  | some a =>
    show (s'.keys.any fun k => k.id == a) = (s.keys.any fun k => k.id == a)
    rw [← any_id_beq s'.keys a, ← any_id_beq s.keys a, hkeys]

/-- Every store operation preserves the no-dangling-active invariant. -/
lemma activeConsistent_applyOp (s : KeyStore) (op : StoreOp)
    (h : activeConsistent s = true) : activeConsistent (applyOp s op) = true := by
  cases op with
  | add newId name key createdAt =>
    simp only [applyOp, ApiKeyManager.add]
    split
    · simp only [ApiKeyManager.setActive]
      rw [if_pos (by simp [List.any_eq_true])]
      rw [activeConsistent_iff]
      exact Or.inr ⟨⟨newId, trimStr name, trimStr key, createdAt⟩, by simp, rfl⟩
    · rw [activeConsistent_iff]
      rcases (activeConsistent_iff s).mp h with hnone | ⟨k, hk, hka⟩
      · exact Or.inl hnone
      · exact Or.inr ⟨k, by simp [hk], hka⟩
  | update id name key =>
    cases hidx : s.keys.findIdx? (fun k => k.id == id) with
    | none => simpa [applyOp, ApiKeyManager.update, hidx] using h
    | some index =>
      cases hget : s.keys[index]? with
      | none => simpa [applyOp, ApiKeyManager.update, hidx, hget] using h
      | some old =>
        obtain ⟨hlt, hgetv⟩ := List.getElem?_eq_some_iff.mp hget
        have hval : applyOp s (StoreOp.update id name key) =
            KeyStore.mk (s.keys.set index ⟨old.id, trimStr name, trimStr key, old.createdAt⟩)
              s.activeId := by
          simp [applyOp, ApiKeyManager.update, hidx, hget]
        have hsz : index < (s.keys.map ApiKeyEntry.id).length := by simpa using hlt
        have hgm : (s.keys.map ApiKeyEntry.id).get ⟨index, hsz⟩ = old.id := by
          simp [List.get_eq_getElem, List.getElem_map, hgetv]
        have hmap : (s.keys.set index
            ⟨old.id, trimStr name, trimStr key, old.createdAt⟩).map ApiKeyEntry.id =
            s.keys.map ApiKeyEntry.id := by
          rw [List.map_set]
          show (s.keys.map ApiKeyEntry.id).set index old.id = s.keys.map ApiKeyEntry.id
          rw [← hgm, list_set_self]
        have hcongr := activeConsistent_congr s
          (KeyStore.mk (s.keys.set index ⟨old.id, trimStr name, trimStr key, old.createdAt⟩)
            s.activeId) rfl hmap
        rw [hval, hcongr]
        exact h
  | delete id =>
    simp only [applyOp, ApiKeyManager.delete]
    split
    · exact h
    · split
      · cases hf : s.keys.filter (fun k => !(k.id == id)) with
        | nil => rfl
        | cons first rest =>
          simp only [ApiKeyManager.setActive]
          rw [if_pos (by simp [List.any_eq_true])]
          rw [activeConsistent_iff]
          exact Or.inr ⟨first, by simp [hf], rfl⟩
      · rename_i hne hnact
        rw [activeConsistent_iff]
        rcases (activeConsistent_iff s).mp h with hnone | ⟨k, hk, hka⟩
        · exact Or.inl hnone
        · refine Or.inr ⟨k, ?_, hka⟩
          rw [List.mem_filter]
          refine ⟨hk, ?_⟩
          have haid : s.activeId ≠ some id := by
            intro hcontra
            exact hnact (by simp [hcontra])
          have : k.id ≠ id := by
            intro hcontra
            exact haid (hka.trans (by rw [hcontra]))
          simp [this]
  | setActive id =>
    simp only [applyOp, ApiKeyManager.setActive]
    split
    · rename_i hany
      rw [activeConsistent_iff]
      simp only [List.any_eq_true, beq_iff_eq] at hany
      obtain ⟨k, hk, hka⟩ := hany
      exact Or.inr ⟨k, hk, by rw [hka]⟩
    · exact h
  | clearAll =>
    rfl

/-- C9: starting from the empty store, after any sequence of add, update,
delete, setActive and clearAll operations the active pointer is either unset
or equal to the id of an entry currently present — no observable state has a
dangling active reference. -/
theorem c9_active_never_dangles (ops : List StoreOp) :
    activeConsistent (ops.foldl applyOp emptyStore) = true := by
  have hgen : ∀ (l : List StoreOp) (s : KeyStore), activeConsistent s = true →
      activeConsistent (l.foldl applyOp s) = true := by
    intro l
    induction l with
    | nil => intro s hs; exact hs
    | cons op rest ih =>
      intro s hs
      rw [List.foldl_cons]
      exact ih (applyOp s op) (activeConsistent_applyOp s op hs)
  exact hgen ops emptyStore rfl

/-! ## Round-robin rotation lemmas -/

/-- In a list with pairwise distinct ids, searching for the id of the entry
at position i finds exactly position i. -/
lemma findIdx_of_nodup :
    ∀ (l : List ApiKeyEntry), (l.map ApiKeyEntry.id).Nodup →
      ∀ (i : Nat) (e : ApiKeyEntry), l[i]? = some e →
        l.findIdx? (fun k => (some e.id : Option String) == some k.id) = some i := by
  intro l
  induction l with
  | nil =>
    intro _ i e hget
    simp at hget
  | cons a t ih =>
    intro hnd i e hget
    rw [List.map_cons, List.nodup_cons] at hnd
    cases i with
    | zero =>
      have hea : a = e := by simpa using hget
      rw [List.findIdx?_cons, if_pos (by simp [hea])]
    | succ j =>
      have hgt : t[j]? = some e := by simpa using hget
      obtain ⟨hj, hje⟩ := List.getElem?_eq_some_iff.mp hgt
      have hmem : e.id ∈ t.map ApiKeyEntry.id := by
        rw [← hje]
        exact List.mem_map_of_mem ApiKeyEntry.id (List.getElem_mem hj)
      have hne : (some e.id == some a.id) = false := by
        have : e.id ≠ a.id := fun hcontra => hnd.1 (hcontra ▸ hmem)
        simp [this]
      rw [List.findIdx?_cons]
      simp only [hne, Bool.false_eq_true, if_false]
      rw [show (0 + 1 : Nat) = 0 + 1 from rfl, List.findIdx?_succ, ih hnd.2 j e hgt]
      rfl

/-- Single rotation step in a store with at least two credentials, pairwise
distinct ids and the entry at position i active: it activates the entry at
position (i + 1) mod length and returns true, keeping the list intact. -/
lemma tryRotate_step (s : KeyStore) (hN : 2 ≤ s.keys.length)
    (hnd : (s.keys.map ApiKeyEntry.id).Nodup) (i : Nat) (e : ApiKeyEntry)
    (hget : s.keys[i]? = some e) (hact : s.activeId = some e.id) :
    tryRotateApiKey s =
      (KeyStore.mk s.keys ((s.keys[(i + 1) % s.keys.length]?).map ApiKeyEntry.id), true) := by
  obtain ⟨hi, hei⟩ := List.getElem?_eq_some_iff.mp hget
  have hmlt : (i + 1) % s.keys.length < s.keys.length := Nat.mod_lt _ (by omega)
  have hij : (i + 1) % s.keys.length ≠ i := by
    rcases Nat.lt_or_ge (i + 1) s.keys.length with hlt | hge
    · rw [Nat.mod_eq_of_lt hlt]
      omega
    · have hieq : i + 1 = s.keys.length := by omega
      rw [hieq, Nat.mod_self]
      omega
  have hneid : e.id ≠ (s.keys[(i + 1) % s.keys.length]).id := by
    intro hcontra
    have hmapi : (s.keys.map ApiKeyEntry.id).get ⟨i, by simpa using hi⟩ =
        (s.keys.map ApiKeyEntry.id).get ⟨(i + 1) % s.keys.length, by simpa using hmlt⟩ := by
      simp only [List.get_eq_getElem, List.getElem_map]
      rw [hei]
      exact hcontra
    have hfin := (List.Nodup.get_inj_iff hnd).mp hmapi
    have hval := congrArg Fin.val hfin
    exact hij (by simpa using hval.symm)
  have hbeq : ((some e.id : Option String) ==
      some ((s.keys[(i + 1) % s.keys.length]).id)) = false := by
    simp [hneid]
  simp only [tryRotateApiKey, ApiKeyManager.getAll, ApiKeyManager.getActiveId]
  rw [if_neg (show ¬s.keys.length ≤ 1 by omega)]
  simp only [hact, findIdx_of_nodup s.keys hnd i e hget, List.getElem?_eq_getElem hmlt]
  simp only [hbeq, Bool.false_eq_true, if_false, ApiKeyManager.setActive]
  rw [if_pos (show (s.keys.any
      fun k => k.id == (s.keys[(i + 1) % s.keys.length]).id) = true from
    List.any_eq_true.mpr ⟨s.keys[(i + 1) % s.keys.length],
      List.getElem_mem hmlt, by simp⟩)]
  simp [Option.map_some]

/-- Iterated rotation in a store with at least two credentials and pairwise
distinct ids, entry at position i active: after k rotations the list is
unchanged and the entry at position (i + k) mod length is active. -/
lemma rotateIter_spec (s : KeyStore) (hN : 2 ≤ s.keys.length)
    (hnd : (s.keys.map ApiKeyEntry.id).Nodup) (i : Nat) (hi : i < s.keys.length)
    (hact : s.activeId = (s.keys[i]?).map ApiKeyEntry.id) :
    ∀ k, rotateIter s k =
      KeyStore.mk s.keys ((s.keys[(i + k) % s.keys.length]?).map ApiKeyEntry.id) := by
  intro k
  induction k with
  | zero =>
    have h0 : (i + 0) % s.keys.length = i := by
      rw [Nat.add_zero, Nat.mod_eq_of_lt hi]
    rw [h0]
    cases s with
    | mk ks act =>
      simp only at hact
      simp only [rotateIter, hact]
  | succ k ih =>
    have hmlt : (i + k) % s.keys.length < s.keys.length := Nat.mod_lt _ (by omega)
    have hget : (KeyStore.mk s.keys
        ((s.keys[(i + k) % s.keys.length]?).map ApiKeyEntry.id)).keys[(i + k) %
          s.keys.length]? = some (s.keys[(i + k) % s.keys.length]) :=
      List.getElem?_eq_getElem hmlt
    have hact2 : (KeyStore.mk s.keys
        ((s.keys[(i + k) % s.keys.length]?).map ApiKeyEntry.id)).activeId =
        some ((s.keys[(i + k) % s.keys.length]).id) := by
      simp only [List.getElem?_eq_getElem hmlt, Option.map_some]
      rfl
    have hstep := tryRotate_step
      (KeyStore.mk s.keys ((s.keys[(i + k) % s.keys.length]?).map ApiKeyEntry.id))
      hN hnd ((i + k) % s.keys.length) (s.keys[(i + k) % s.keys.length]) hget hact2
    have hidx : ((i + k) % s.keys.length + 1) % s.keys.length =
        (i + (k + 1)) % s.keys.length := by
      have h1 : i + (k + 1) = (i + k) + 1 := by omega
      rw [h1, Nat.add_mod (i + k) 1, Nat.mod_eq_of_lt (show 1 < s.keys.length by omega)]
    simp only [rotateIter, ih, hstep, hidx]

/-- C4: in a store with N >= 2 credentials with pairwise distinct ids whose
active pointer designates the entry at position i, every call in a run of
successive rotations returns true and keeps the entry list intact; the
sequence of active ids after calls 1..N is exactly the id list rotated to
start just after position i (so every other entry is visited exactly once, in
insertion order, cyclically); and after the N-th call the active id is back
to its initial value. -/
theorem c4_rotation_round_robin (s : KeyStore) (hN : 2 ≤ s.keys.length)
    (hnd : (s.keys.map ApiKeyEntry.id).Nodup) (i : Nat) (hi : i < s.keys.length)
    (hact : s.activeId = (s.keys[i]?).map ApiKeyEntry.id) :
    (∀ k, (tryRotateApiKey (rotateIter s k)).2 = true) ∧
    (∀ k, (rotateIter s k).keys = s.keys) ∧
    ((List.range s.keys.length).map (fun k => (rotateIter s (k + 1)).activeId) =
      ((s.keys.map ApiKeyEntry.id).rotate (i + 1)).map some) ∧
    (rotateIter s s.keys.length).activeId = s.activeId := by
  have hspec := rotateIter_spec s hN hnd i hi hact
  refine ⟨?_, ?_, ?_, ?_⟩
  · intro k
    have hmlt : (i + k) % s.keys.length < s.keys.length := Nat.mod_lt _ (by omega)
    have hget : (KeyStore.mk s.keys
        ((s.keys[(i + k) % s.keys.length]?).map ApiKeyEntry.id)).keys[(i + k) %
          s.keys.length]? = some (s.keys[(i + k) % s.keys.length]) :=
      List.getElem?_eq_getElem hmlt
    have hact2 : (KeyStore.mk s.keys
        ((s.keys[(i + k) % s.keys.length]?).map ApiKeyEntry.id)).activeId =
        some ((s.keys[(i + k) % s.keys.length]).id) := by
      simp only [List.getElem?_eq_getElem hmlt, Option.map_some]
      rfl
    have hstep := tryRotate_step
      (KeyStore.mk s.keys ((s.keys[(i + k) % s.keys.length]?).map ApiKeyEntry.id))
      hN hnd ((i + k) % s.keys.length) (s.keys[(i + k) % s.keys.length]) hget hact2
    rw [hspec k, hstep]
  · intro k
    rw [hspec k]
  · apply List.ext_getElem
    · simp
    · intro k hk1 hk2
      have hkN : k < s.keys.length := by simpa using hk1
      have hmlt : (i + (k + 1)) % s.keys.length < s.keys.length := Nat.mod_lt _ (by omega)
      have hrot : k < ((s.keys.map ApiKeyEntry.id).rotate (i + 1)).length := by
        simpa using hkN
      have hmap : k < (s.keys.map ApiKeyEntry.id).length := by simpa using hkN
      simp only [List.getElem_map, List.getElem_range, hspec (k + 1)]
      rw [List.getElem_rotate]
      simp only [List.getElem?_eq_getElem hmlt, Option.map_some, List.getElem_map]
      have hidx : (k + (i + 1)) % (List.map ApiKeyEntry.id s.keys).length =
          (i + (k + 1)) % s.keys.length := by
        rw [List.length_map]
        congr 1
        omega
      simp only [hidx]
      rfl
  · rw [hspec s.keys.length]
    have hNN : (i + s.keys.length) % s.keys.length = i := by
      rw [Nat.add_mod_right, Nat.mod_eq_of_lt hi]
    rw [hNN, hact]

/-- Witness for C4 at a three-credential store: the first rotation returns
true and three rotations bring the active pointer back to its start. -/
theorem c4_rotation_round_robin_witness :
    (tryRotateApiKey (rotateIter storeABC 0)).2 = true ∧
    (rotateIter storeABC 3).activeId = storeABC.activeId := by
  have h := c4_rotation_round_robin storeABC (by decide) (by decide) 0 (by decide) rfl
  exact ⟨h.1 0, h.2.2.2⟩
